import Mathlib

/-!
Shallow embedding of `src/final.rs` (crime-record analysis pipeline):
record normalization (`read_data`), same-date adjacency construction
(`build_adjacency_list`), breadth-first reachability
(`six_degrees_of_distribution`), temporal aggregation
(`plot_temporal_trends`), and the k-means clustering entry point
(external `k_means` crate, modelled from the specification).

Modelling conventions:
* `chrono::NaiveDateTime` is opaque to the program except for its
  accessors `.date()` and `.year()`; it is embedded as a structure whose
  fields are exactly those observables (`date` as an abstract totally
  ordered day index, `time`, `year`).
* `f64` values produced by the external float parser are embedded as `Rat`.
* `HashMap`/`HashSet` are embedded as association lists / lists, observed
  only through lookup (last insert wins, as `HashMap::insert` overwrites)
  and membership.
* External collaborators (CSV field splitting, `NaiveDateTime::parse_from_str`,
  `str::parse::<f64>`) are parameters of the ingestion function.
* A Rust `panic!` (from `.unwrap()` / out-of-bounds indexing) is a distinct
  outcome from an error returned with `?`.
-/

namespace Final

/-- Embedding of `chrono::NaiveDateTime` by its observable accessors:
`date` is the calendar date (an abstract day index, totally ordered),
`time` the time of day, `year` the calendar year. `.date()` discards the
time of day. -/
structure NaiveDateTime where
  date : Nat
  time : Nat
  year : Int
deriving DecidableEq, Repr

/-- The `CrimeRecord` struct of `src/final.rs` after cleaning. -/
structure CrimeRecord where
  ID : String
  Case_Number : String
  Date : NaiveDateTime
  Block : String
  IUCR : String
  Primary_Type : String
  Description : String
  Location_Description : String
  Arrest : Bool
  Domestic : Bool
  Beat : String
  District : String
  Ward : String
  Community_Area : String
  FBI_Code : String
  X_Coordinate : Option Rat
  Y_Coordinate : Option Rat
  Year : Int
  Updated_On : String
  Latitude : Option Rat
  Longitude : Option Rat
  Location : String
deriving DecidableEq, Repr

/-- One raw CSV row: the same fields as `CrimeRecord`, as unparsed strings
(the form in which `read_data`'s cleaning code treats them). -/
structure RawRow where
  ID : String
  Case_Number : String
  Date : String
  Block : String
  IUCR : String
  Primary_Type : String
  Description : String
  Location_Description : String
  Arrest : String
  Domestic : String
  Beat : String
  District : String
  Ward : String
  Community_Area : String
  FBI_Code : String
  X_Coordinate : String
  Y_Coordinate : String
  Year : String
  Updated_On : String
  Latitude : String
  Longitude : String
  Location : String
deriving DecidableEq, Repr

/-- Outcome of processing one row in `read_data`'s loop:
`ok` — the cleaned record; `parseErr` — an error returned to the caller
via `?` (the date-parse line); `panic` — a panic via `.unwrap()` on a
failed numeric parse. -/
inductive RowOutcome where
  | ok : CrimeRecord → RowOutcome
  | parseErr : RowOutcome
  | panic : RowOutcome
deriving DecidableEq, Repr

/-- Outcome of the whole `read_data` loop. -/
inductive ReadOutcome where
  | ok : List CrimeRecord → ReadOutcome
  | parseErr : ReadOutcome
  | panic : ReadOutcome
deriving DecidableEq, Repr

/-- The per-field treatment of an optional numeric column in `read_data`:
empty string becomes `None`; otherwise `Some(field.parse().unwrap())`,
where a failed parse panics (outer `none`). -/
def parseOptNum (parseF64 : String → Option Rat) (s : String) :
    Option (Option Rat) :=
  if s = "" then some none
  else
    match parseF64 s with
    | none => none
    | some v => some (some v)

/-- The body of `read_data`'s per-row loop in `src/final.rs` (lines 45-75):
boolean cleaning, date parse via `?`, year extraction, and the four
optional numeric fields (each `.unwrap()` panics on a non-empty
unparseable string). `parseDT` and `parseF64` are the external
date-parsing and float-parsing collaborators. -/
def read_row (parseDT : String → Option NaiveDateTime)
    (parseF64 : String → Option Rat) (row : RawRow) : RowOutcome :=
  match parseDT row.Date with
  | none => RowOutcome.parseErr
  | some dt =>
    match parseOptNum parseF64 row.X_Coordinate with
    | none => RowOutcome.panic
    | some xv =>
      match parseOptNum parseF64 row.Y_Coordinate with
      | none => RowOutcome.panic
      | some yv =>
        match parseOptNum parseF64 row.Latitude with
        | none => RowOutcome.panic
        | some lat =>
          match parseOptNum parseF64 row.Longitude with
          | none => RowOutcome.panic
          | some lon =>
            RowOutcome.ok
              { ID := row.ID
                Case_Number := row.Case_Number
                Date := dt
                Block := row.Block
                IUCR := row.IUCR
                Primary_Type := row.Primary_Type
                Description := row.Description
                Location_Description := row.Location_Description
                Arrest := row.Arrest == "TRUE"
                Domestic := row.Domestic == "TRUE"
                Beat := row.Beat
                District := row.District
                Ward := row.Ward
                Community_Area := row.Community_Area
                FBI_Code := row.FBI_Code
                X_Coordinate := xv
                Y_Coordinate := yv
                Year := dt.year
                Updated_On := row.Updated_On
                Latitude := lat
                Longitude := lon
                Location := row.Location }

/-- The accumulating loop of `read_data`: rows are processed in order;
a date-parse error aborts the whole ingestion with an error, a numeric
`.unwrap()` failure aborts it with a panic. -/
def read_data_aux (parseDT : String → Option NaiveDateTime)
    (parseF64 : String → Option Rat) :
    List RawRow → List CrimeRecord → ReadOutcome
  | [], acc => ReadOutcome.ok acc.reverse
  | row :: rows, acc =>
    match read_row parseDT parseF64 row with
    | RowOutcome.ok rec => read_data_aux parseDT parseF64 rows (rec :: acc)
    | RowOutcome.parseErr => ReadOutcome.parseErr
    | RowOutcome.panic => ReadOutcome.panic

/-- `read_data` of `src/final.rs` (lines 39-79), over already-split rows. -/
def read_data (parseDT : String → Option NaiveDateTime)
    (parseF64 : String → Option Rat) (rows : List RawRow) : ReadOutcome :=
  read_data_aux parseDT parseF64 rows []

/-- An adjacency list: record id to set of neighbor ids
(`HashMap<String, HashSet<String>>`, embedded as an association list
observed through last-insert-wins lookup). -/
def AdjList : Type := List (String × List String)

/-- `HashMap::get` after the sequence of `HashMap::insert`s that produced
the association list: the entry inserted last wins. -/
def lookupAdj : AdjList → String → Option (List String)
  | [], _ => none
  | p :: rest, k =>
    match lookupAdj rest k with
    | some v => some v
    | none => if p.1 = k then some p.2 else none

/-- The `related_nodes` set computed for one record in
`build_adjacency_list` (lines 86-91): ids of the records with a different
id and the same calendar date. -/
def related_nodes (records : List CrimeRecord) (record : CrimeRecord) :
    List String :=
  (((records.filter (fun r => r.ID != record.ID)).filter
      (fun r => r.Date.date == record.Date.date)).map CrimeRecord.ID)

/-- `build_adjacency_list` of `src/final.rs` (lines 81-97): one insert per
record, keyed by its id. -/
def build_adjacency_list (records : List CrimeRecord) : AdjList :=
  records.map (fun record => (record.ID, related_nodes records record))

/-- The inner `for neighbor in neighbors` loop of
`six_degrees_of_distribution` (lines 113-118): every not-yet-visited
neighbor is marked visited and pushed on the queue, in enumeration
order. -/
def enqueueNew : List String × List String → List String →
    List String × List String
  | vq, [] => vq
  | (visited, queue), n :: ns =>
    if n ∈ visited then enqueueNew (visited, queue) ns
    else enqueueNew (visited ++ [n], queue ++ [n]) ns

/-- The sublist of `ns` whose elements are not yet visited, kept in order,
each counted once (the set of nodes the inner loop newly discovers). -/
def freshOf (visited : List String) : List String → List String
  | [] => []
  | n :: ns =>
    if n ∈ visited then freshOf visited ns
    else n :: freshOf (visited ++ [n]) ns

theorem enqueueNew_eq (visited queue : List String) :
    ∀ ns, enqueueNew (visited, queue) ns =
      (visited ++ freshOf visited ns, queue ++ freshOf visited ns) := by
  suffices h : ∀ ns visited queue, enqueueNew (visited, queue) ns =
      (visited ++ freshOf visited ns, queue ++ freshOf visited ns) by
    intro ns; exact h ns visited queue
  intro ns
  induction ns with
  | nil => intro visited queue; simp [enqueueNew, freshOf]
  | cons n ns ih =>
    intro visited queue
    by_cases hn : n ∈ visited
    · simp [enqueueNew, freshOf, hn, ih]
    · simp [enqueueNew, freshOf, hn, ih]

theorem freshOf_mem {x : String} :
    ∀ {ns visited}, x ∈ freshOf visited ns → x ∈ ns ∧ x ∉ visited := by
  intro ns
  induction ns with
  | nil => intro visited h; simp [freshOf] at h
  | cons n ns ih =>
    intro visited h
    by_cases hn : n ∈ visited
    · simp only [freshOf, if_pos hn] at h
      rcases ih h with ⟨h1, h2⟩
      exact ⟨List.mem_cons_of_mem _ h1, h2⟩
    · simp only [freshOf, if_neg hn] at h
      rcases List.mem_cons.mp h with h | h
      · exact ⟨by simp [h], h ▸ hn⟩
      · rcases ih h with ⟨h1, h2⟩
        refine ⟨List.mem_cons_of_mem _ h1, fun hx => h2 ?_⟩
        exact List.mem_append_left _ hx

theorem freshOf_complete {x : String} :
    ∀ {ns visited}, x ∈ ns → x ∈ visited ∨ x ∈ freshOf visited ns := by
  intro ns
  induction ns with
  | nil => intro visited h; simp at h
  | cons n ns ih =>
    intro visited h
    by_cases hn : n ∈ visited
    · simp only [freshOf, if_pos hn]
      rcases List.mem_cons.mp h with h | h
      · exact Or.inl (h ▸ hn)
      · exact ih h
    · simp only [freshOf, if_neg hn]
      rcases List.mem_cons.mp h with h | h
      · exact Or.inr (by simp [h])
      · rcases @ih (visited ++ [n]) h with h' | h'
        · rcases List.mem_append.mp h' with h' | h'
          · exact Or.inl h'
          · simp at h'
            exact Or.inr (by simp [h'])
        · exact Or.inr (List.mem_cons_of_mem _ h')

theorem freshOf_nodup : ∀ (ns visited : List String),
    (freshOf visited ns).Nodup := by
  intro ns
  induction ns with
  | nil => intro visited; simp [freshOf]
  | cons n ns ih =>
    intro visited
    by_cases hn : n ∈ visited
    · simpa [freshOf, hn] using ih visited
    · simp only [freshOf, if_neg hn]
      refine List.nodup_cons.mpr ⟨fun hmem => ?_, ih (visited ++ [n])⟩
      rcases freshOf_mem hmem with ⟨_, h2⟩
      exact h2 (by simp)

/-- All node names occurring in some adjacency value. -/
def univFinset (adj : AdjList) : Finset String :=
  (List.flatten (adj.map Prod.snd)).toFinset

theorem lookupAdj_mem_values :
    ∀ (adj : AdjList) (k : String) (ns : List String),
      lookupAdj adj k = some ns → ns ∈ adj.map Prod.snd := by
  intro adj
  induction adj with
  | nil => intro k ns h; simp [lookupAdj] at h
  | cons p rest ih =>
    intro k ns h
    simp only [lookupAdj] at h
    cases hrest : lookupAdj rest k with
    | some v =>
      rw [hrest] at h
      cases h
      exact List.mem_cons_of_mem _ (ih k ns hrest)
    | none =>
      rw [hrest] at h
      by_cases hp : p.1 = k
      · rw [if_pos hp] at h
        cases h
        simp
      · rw [if_neg hp] at h
        cases h

theorem getD_lookup_subset (adj : AdjList) (q : String) :
    ∀ x ∈ (lookupAdj adj q).getD [], x ∈ univFinset adj := by
  intro x hx
  cases h : lookupAdj adj q with
  | none => rw [h] at hx; simp at hx
  | some ns =>
    rw [h] at hx
    simp only [Option.getD_some] at hx
    have hmem := lookupAdj_mem_values adj q ns h
    simp only [univFinset, List.mem_toFinset, List.mem_flatten]
    exact ⟨ns, hmem, hx⟩

theorem bfs_measure (U : Finset String) (visited rest ns : List String)
    (hsub : ∀ x ∈ freshOf visited ns, x ∈ U) :
    2 * (U \ (visited ++ freshOf visited ns).toFinset).card
      + (rest ++ freshOf visited ns).length
    < 2 * (U \ visited.toFinset).card + (rest.length + 1) := by
  have hnd : (freshOf visited ns).Nodup := freshOf_nodup ns visited
  have hsubset : (freshOf visited ns).toFinset ⊆ U \ visited.toFinset := by
    intro x hx
    rw [List.mem_toFinset] at hx
    rcases freshOf_mem hx with ⟨_, h2⟩
    exact Finset.mem_sdiff.mpr ⟨hsub x hx, by
      rw [List.mem_toFinset]; exact h2⟩
  have hcardF : (freshOf visited ns).toFinset.card =
      (freshOf visited ns).length := List.toFinset_card_of_nodup hnd
  have happ : (visited ++ freshOf visited ns).toFinset =
      visited.toFinset ∪ (freshOf visited ns).toFinset :=
    List.toFinset_append
  have hsd : U \ (visited.toFinset ∪ (freshOf visited ns).toFinset) =
      (U \ visited.toFinset) \ (freshOf visited ns).toFinset := by
    ext x
    simp only [Finset.mem_sdiff, Finset.mem_union]
    tauto
  have hle : (freshOf visited ns).toFinset.card ≤
      (U \ visited.toFinset).card := Finset.card_le_card hsubset
  have hcard : (U \ (visited ++ freshOf visited ns).toFinset).card =
      (U \ visited.toFinset).card - (freshOf visited ns).length := by
    rw [happ, hsd, Finset.card_sdiff hsubset, hcardF]
  rw [hcard, List.length_append]
  rw [hcardF] at hle
  omega

/-- The `while !queue.is_empty()` loop of `six_degrees_of_distribution`
(lines 109-120): dequeue the front node, look its neighbors up in the
adjacency map (absent key: no neighbors), and mark-and-enqueue every
not-yet-visited neighbor. Terminates because each step either discovers
new nodes (shrinking the unvisited part of the adjacency values) or
shortens the queue. -/
def bfsAux (adj : AdjList) (visited queue : List String) : List String :=
  match queue with
  | [] => visited
  | q :: rest =>
    bfsAux adj
      (enqueueNew (visited, rest) ((lookupAdj adj q).getD [])).1
      (enqueueNew (visited, rest) ((lookupAdj adj q).getD [])).2
termination_by 2 * ((univFinset adj) \ visited.toFinset).card + queue.length
decreasing_by
  rw [enqueueNew_eq]
  exact bfs_measure (univFinset adj) _ _ _
    (fun x hx => getD_lookup_subset adj _ x (freshOf_mem hx).1)

/-- `six_degrees_of_distribution` of `src/final.rs` (lines 99-123):
breadth-first traversal, visited and queue both seeded with the start
node; returns the visited set. -/
def six_degrees_of_distribution (adjacency_list : AdjList)
    (start_node : String) : List String :=
  bfsAux adjacency_list [start_node] [start_node]

/-- One `date_counts.entry(date).and_modify(|c| *c += 1).or_insert(1)`
step of `plot_temporal_trends` (line 130): bump the count of an existing
date key, or insert the key with count 1. -/
def bumpDate (m : List (Nat × Nat)) (d : Nat) : List (Nat × Nat) :=
  if m.any (fun p => p.1 == d) then
    m.map (fun p => if p.1 == d then (p.1, p.2 + 1) else p)
  else m ++ [(d, 1)]

/-- The `date_counts` map of `plot_temporal_trends` (lines 126-131),
as an association list keyed by calendar date. -/
def date_counts (records : List CrimeRecord) : List (Nat × Nat) :=
  records.foldl (fun m r => bumpDate m r.Date.date) []

/-- The `dates` vector of `plot_temporal_trends` (lines 133-134): the
keys of `date_counts`, sorted chronologically. -/
def temporal_dates (records : List CrimeRecord) : List Nat :=
  List.insertionSort (· ≤ ·) ((date_counts records).map Prod.fst)

/-- `date_counts[date]` for the printing loop (line 138); every printed
date is a key of the map. -/
def countOf (m : List (Nat × Nat)) (d : Nat) : Nat :=
  ((m.find? (fun p => p.1 == d)).map Prod.snd).getD 0

/-- `.values().max()` (an `Option`, whose `.unwrap()` panics when the map
is empty). -/
def listMax : List Nat → Option Nat
  | [] => none
  | c :: cs => some (cs.foldl Nat.max c)

/-- `plot_temporal_trends` of `src/final.rs` (lines 125-167), up to the
external chart-rendering collaborator: produces the printed (date, count)
sequence and the chart axis bounds `dates[0]..dates.last().unwrap().succ()`
and `0..max+1`. The indexing `dates[0]`, `dates.last().unwrap()` and
`date_counts.values().max().unwrap()` all panic on an empty record set;
a panic is modelled as `none`. -/
def plot_temporal_trends (records : List CrimeRecord) :
    Option (List (Nat × Nat) × (Nat × Nat) × Nat) :=
  let dc := date_counts records
  let dates := List.insertionSort (· ≤ ·) (dc.map Prod.fst)
  let printed := dates.map (fun d => (d, countOf dc d))
  match dates.head?, dates.getLast?, listMax (dc.map Prod.snd) with
  | some d0, some dl, some m => some (printed, (d0, dl + 1), m + 1)
  | _, _, _ => none

/-- Modelled from the spec: the `Point` type of the external `k_means`
crate (the crate's source is not part of this repository) — a 2-D vector,
coordinates embedded as `Rat`. -/
structure Point where
  x : Rat
  y : Rat
deriving DecidableEq, Repr, Inhabited

/-- Modelled from the spec: squared Euclidean distance; comparing squared
distances is equivalent to comparing Euclidean distances. -/
def sqDist (p q : Point) : Rat :=
  (p.x - q.x) * (p.x - q.x) + (p.y - q.y) * (p.y - q.y)

/-- Helper scan for the nearest center: strict improvement keeps the
earliest (lowest-index) center on ties. -/
def nearestAux (p : Point) : List Point → Nat → Nat → Rat → Nat
  | [], _, best, _ => best
  | c :: cs, i, best, bestD =>
    if sqDist c p < bestD then nearestAux p cs (i + 1) i (sqDist c p)
    else nearestAux p cs (i + 1) best bestD

/-- Modelled from the spec: the index of the nearest center under
Euclidean distance, ties broken by lowest cluster index. -/
def nearestIdx (p : Point) (centers : List Point) : Nat :=
  match centers with
  | [] => 0
  | c0 :: cs => nearestAux p cs 1 0 (sqDist c0 p)

/-- Modelled from the spec: assignment step — each point joins the cluster
of its nearest center. -/
def assignPoints (points centers : List Point) : List Nat :=
  points.map (fun p => nearestIdx p centers)

/-- Arithmetic mean of a nonempty list of points. -/
def meanPoint (members : List Point) : Point :=
  { x := (members.map Point.x).sum / (members.length : Rat)
    y := (members.map Point.y).sum / (members.length : Rat) }

/-- Modelled from the spec: update step — each center becomes the mean of
its current members; a cluster with no members keeps its previous
center. -/
def updateCenters (points : List Point) (assign : List Nat)
    (centers : List Point) : List Point :=
  (List.range centers.length).map (fun j =>
    let members :=
      ((points.zip assign).filter (fun pa => pa.2 == j)).map Prod.fst
    if members.isEmpty then centers.getD j default
    else meanPoint members)

/-- Modelled from the spec: the bounded assignment/update loop — stop when
no point changes cluster membership between consecutive iterations, or
when the iteration bound is exhausted (returning the current state). -/
def kmeansLoop (points : List Point) :
    Nat → List Point → List Nat → List Point × List Nat
  | 0, centers, assign => (centers, assign)
  | fuel + 1, centers, assign =>
    if assignPoints points centers = assign then
      (centers, assignPoints points centers)
    else
      kmeansLoop points fuel
        (updateCenters points (assignPoints points centers) centers)
        (assignPoints points centers)

/-- A result cluster: final center plus the member point-indices
(back-references into the input point sequence). -/
structure Cluster where
  center : Point
  members : List Nat
deriving DecidableEq, Repr

/-- Package the final centers and assignment as the output clusters. -/
def mkClusters (centers : List Point) (assign : List Nat) : List Cluster :=
  (List.range centers.length).map (fun j =>
    { center := centers.getD j default
      members :=
        (List.range assign.length).filter (fun i => assign.getD i 0 == j) })

/-- The `KMeans` handle built by `KMeans::new(&points, k)` (line 187). -/
structure KMeans where
  points : List Point
  k : Nat

/-- Modelled from the spec: `KMeans::fit` of the external `k_means` crate
(lines 180-188 call into it; the crate is not part of this repository's
sources). Deterministic seeding on the first k points, one assignment
before the loop, bounded assignment/update iteration, and `InvalidInput`
(`none`) when k = 0 or k exceeds the point count. -/
def KMeans.fit (km : KMeans) (maxIter : Nat) : Option (List Cluster) :=
  if km.k = 0 ∨ km.points.length < km.k then none
  else
    let init := km.points.take km.k
    let a0 := assignPoints km.points init
    let res := kmeansLoop km.points maxIter (updateCenters km.points a0 init) a0
    some (mkClusters res.1 res.2)

/-- Concrete instantiation of the external datetime-parsing collaborator
(`NaiveDateTime::parse_from_str` with format `%m/%d/%y %H:%M`), used to
run the ingestion on concrete rows. -/
def demoParseDT (s : String) : Option NaiveDateTime :=
  if s = "01/02/20 03:04" then some { date := 18263, time := 184, year := 2020 }
  else if s = "01/03/20 10:00" then some { date := 18264, time := 600, year := 2020 }
  else none

/-- Concrete instantiation of the external float-parsing collaborator
(`str::parse::<f64>`), used to run the ingestion on concrete rows. -/
def demoParseF64 (s : String) : Option Rat :=
  if s = "3" then some 3
  else if s = "2.0" then some 2
  else none

/-- A raw row whose fields all parse; `Arrest` is exactly `"TRUE"`,
`Domestic` is a lower-case `"false"`, X and Latitude are non-empty
parseable numbers, Y and Longitude are empty. -/
def rowClean : RawRow :=
  { ID := "r1", Case_Number := "c1", Date := "01/02/20 03:04", Block := "b"
    IUCR := "i", Primary_Type := "t", Description := "d"
    Location_Description := "ld", Arrest := "TRUE", Domestic := "false"
    Beat := "bt", District := "ds", Ward := "w", Community_Area := "ca"
    FBI_Code := "f", X_Coordinate := "3", Y_Coordinate := ""
    Year := "2019", Updated_On := "u", Latitude := "2.0", Longitude := ""
    Location := "loc" }

/-- The cleaned record `read_row` produces from `rowClean`. -/
def recClean : CrimeRecord :=
  { ID := "r1", Case_Number := "c1"
    Date := { date := 18263, time := 184, year := 2020 }, Block := "b"
    IUCR := "i", Primary_Type := "t", Description := "d"
    Location_Description := "ld", Arrest := true, Domestic := false
    Beat := "bt", District := "ds", Ward := "w", Community_Area := "ca"
    FBI_Code := "f", X_Coordinate := some 3
    Y_Coordinate := none, Year := 2020, Updated_On := "u"
    Latitude := some 2, Longitude := none, Location := "loc" }

/-- `rowClean` with a timestamp the datetime collaborator rejects. -/
def rowBadDate : RawRow :=
  { rowClean with Date := "not-a-date" }

/-- `rowClean` with a non-empty X coordinate the float collaborator
rejects. -/
def rowBadNum : RawRow :=
  { rowClean with X_Coordinate := "abc" }

/-- A helper to build concrete records: all payload fields inert, id and
calendar date as given. -/
def mkRec (id : String) (d : Nat) : CrimeRecord :=
  { ID := id, Case_Number := "", Date := { date := d, time := 0, year := 2020 }
    Block := "", IUCR := "", Primary_Type := "", Description := ""
    Location_Description := "", Arrest := false, Domestic := false
    Beat := "", District := "", Ward := "", Community_Area := ""
    FBI_Code := "", X_Coordinate := none, Y_Coordinate := none, Year := 2020
    Updated_On := "", Latitude := none, Longitude := none, Location := "" }

/-- The concrete scenario of the spec: records "1" and "2" on one date,
"3" on another. -/
def demoRecords : List CrimeRecord :=
  [mkRec "1" 10, mkRec "2" 10, mkRec "3" 20]

/-- An adjacency map and a reordered variant of it: the same graph with
the neighbor set of "a" enumerated in a different order. -/
def demoAdjA : AdjList :=
  [("a", ["b", "c"]), ("b", ["a"]), ("c", ["a"])]

/-- See `demoAdjA`. -/
def demoAdjB : AdjList :=
  [("a", ["c", "b"]), ("b", ["a"]), ("c", ["a"])]

/-- The concrete clustering scenario of the spec: two tight pairs of
points, k = 2. -/
def demoPoints : List Point :=
  [{ x := 0, y := 0 }, { x := 0, y := 1 }, { x := 10, y := 10 },
   { x := 10, y := 11 }]

/-- The one-step neighbor relation determined by the adjacency map:
`y` is listed among `x`'s neighbors. This only depends on the map as a
set-valued function, not on the order in which a `HashSet` happens to be
iterated. -/
def EdgeRel (adj : AdjList) (x y : String) : Prop :=
  ∃ ns, lookupAdj adj x = some ns ∧ y ∈ ns

/-- Two adjacency maps represent the same graph up to iteration order:
each key is bound in both or in neither, and bound neighbor lists are
permutations of each other. -/
def OptPerm : Option (List String) → Option (List String) → Prop
  | none, none => True
  | some l1, some l2 => l1.Perm l2
  | _, _ => False

theorem bfsAux_subset (adj : AdjList) :
    ∀ visited queue, ∀ x ∈ visited, x ∈ bfsAux adj visited queue := by
  intro visited queue
  induction visited, queue using bfsAux.induct adj with
  | case1 visited => intro x hx; simp [bfsAux]; exact hx
  | case2 visited q rest ih =>
    intro x hx
    rw [bfsAux]
    apply ih
    rw [enqueueNew_eq]
    exact List.mem_append_left _ hx

theorem bfsAux_sound (adj : AdjList) (start : String) :
    ∀ visited queue,
      (∀ v ∈ visited, Relation.ReflTransGen (EdgeRel adj) start v) →
      (∀ q ∈ queue, Relation.ReflTransGen (EdgeRel adj) start q) →
      ∀ x ∈ bfsAux adj visited queue,
        Relation.ReflTransGen (EdgeRel adj) start x := by
  intro visited queue
  induction visited, queue using bfsAux.induct adj with
  | case1 visited =>
    intro hv _ x hx
    rw [bfsAux] at hx
    exact hv x hx
  | case2 visited q rest ih =>
    intro hv hq x hx
    rw [bfsAux] at hx
    have hfresh : ∀ f ∈ freshOf visited ((lookupAdj adj q).getD []),
        Relation.ReflTransGen (EdgeRel adj) start f := by
      intro f hf
      have hfn : f ∈ (lookupAdj adj q).getD [] := (freshOf_mem hf).1
      cases hlk : lookupAdj adj q with
      | none => rw [hlk] at hfn; simp at hfn
      | some ns =>
        rw [hlk] at hfn
        simp only [Option.getD_some] at hfn
        exact (hq q (by simp)).tail ⟨ns, hlk, hfn⟩
    refine ih ?_ ?_ x hx
    · rw [enqueueNew_eq]
      intro v hv'
      rcases List.mem_append.mp hv' with h | h
      · exact hv v h
      · exact hfresh v h
    · rw [enqueueNew_eq]
      intro v hv'
      rcases List.mem_append.mp hv' with h | h
      · exact hq v (List.mem_cons_of_mem _ h)
      · exact hfresh v h

theorem bfsAux_closed (adj : AdjList) :
    ∀ visited queue,
      (∀ v ∈ visited, v ∈ queue ∨ ∀ n, EdgeRel adj v n → n ∈ visited) →
      ∀ v ∈ bfsAux adj visited queue, ∀ n, EdgeRel adj v n →
        n ∈ bfsAux adj visited queue := by
  intro visited queue
  induction visited, queue using bfsAux.induct adj with
  | case1 visited =>
    intro hinv v hv n hn
    rw [bfsAux] at hv ⊢
    rcases hinv v hv with h | h
    · simp at h
    · exact h n hn
  | case2 visited q rest ih =>
    intro hinv v hv n hn
    rw [bfsAux] at hv ⊢
    refine ih ?_ v hv n hn
    rw [enqueueNew_eq]
    intro w hw
    rcases List.mem_append.mp hw with hwv | hwf
    · rcases hinv w hwv with hwq | hwc
      · rcases List.mem_cons.mp hwq with hwq | hwq
        · right
          intro m hm
          rcases hm with ⟨ns, hlk, hmns⟩
          have hns : m ∈ (lookupAdj adj q).getD [] := by
            rw [hwq] at hlk
            rw [hlk]
            simpa using hmns
          rcases freshOf_complete hns with h | h
          · exact List.mem_append_left _ h
          · exact List.mem_append_right _ h
        · left
          exact List.mem_append_left _ hwq
      · right
        intro m hm
        exact List.mem_append_left _ (hwc m hm)
    · left
      exact List.mem_append_right _ hwf

/-- The visited set computed by the breadth-first traversal is exactly
the reflexive-transitive closure of the neighbor relation from the start
node. -/
theorem mem_six_degrees_iff (adj : AdjList) (start x : String) :
    x ∈ six_degrees_of_distribution adj start ↔
      Relation.ReflTransGen (EdgeRel adj) start x := by
  constructor
  · intro hx
    refine bfsAux_sound adj start [start] [start] ?_ ?_ x hx
    · intro v hv
      simp at hv
      rw [hv]
    · intro v hv
      simp at hv
      rw [hv]
  · intro hr
    have hstart : start ∈ six_degrees_of_distribution adj start :=
      bfsAux_subset adj [start] [start] start (by simp)
    have hclosed := bfsAux_closed adj [start] [start]
      (fun v hv => Or.inl (by simpa using hv))
    induction hr with
    | refl => exact hstart
    | tail _ e ih => exact hclosed _ ih _ e

theorem lookupAdj_map_none (g : CrimeRecord → List String) :
    ∀ (l : List CrimeRecord) (k : String), k ∉ l.map CrimeRecord.ID →
      lookupAdj (l.map (fun r => (r.ID, g r))) k = none := by
  intro l
  induction l with
  | nil => intro k _; rfl
  | cons r rest ih =>
    intro k hk
    simp only [List.map_cons, lookupAdj]
    rw [ih k (fun h => hk (by simp only [List.map_cons, List.mem_cons]; exact Or.inr h))]
    have : ¬ r.ID = k := fun h => hk (by simp [h])
    simp [this]

theorem lookupAdj_map_some (g : CrimeRecord → List String) :
    ∀ (l : List CrimeRecord) (k : String) (ns : List String),
      lookupAdj (l.map (fun r => (r.ID, g r))) k = some ns →
      ∃ r ∈ l, r.ID = k ∧ ns = g r := by
  intro l
  induction l with
  | nil => intro k ns h; simp [lookupAdj] at h
  | cons r rest ih =>
    intro k ns h
    simp only [List.map_cons, lookupAdj] at h
    cases hrest : lookupAdj (rest.map (fun r => (r.ID, g r))) k with
    | some v =>
      rw [hrest] at h
      cases h
      rcases ih k ns hrest with ⟨r', hmem, hid, hval⟩
      exact ⟨r', List.mem_cons_of_mem _ hmem, hid, hval⟩
    | none =>
      rw [hrest] at h
      by_cases hid : r.ID = k
      · rw [if_pos hid] at h
        cases h
        exact ⟨r, by simp, hid, rfl⟩
      · rw [if_neg hid] at h
        cases h

theorem lookupAdj_map_nodup (g : CrimeRecord → List String) :
    ∀ (l : List CrimeRecord), (l.map CrimeRecord.ID).Nodup →
      ∀ r0 ∈ l, lookupAdj (l.map (fun r => (r.ID, g r))) r0.ID = some (g r0) := by
  intro l
  induction l with
  | nil => intro _ r0 h; simp at h
  | cons r rest ih =>
    intro hnd r0 hr0
    have hnd' : (rest.map CrimeRecord.ID).Nodup := (List.nodup_cons.mp hnd).2
    have hhead : r.ID ∉ rest.map CrimeRecord.ID := (List.nodup_cons.mp hnd).1
    simp only [List.map_cons, lookupAdj]
    rcases List.mem_cons.mp hr0 with h | h
    · subst h
      rw [lookupAdj_map_none g rest r0.ID hhead]
      simp
    · rw [ih hnd' r0 h]

/-- Injectivity of record ids on a record set with no duplicate ids. -/
theorem id_inj_of_nodup {records : List CrimeRecord}
    (hnodup : (records.map CrimeRecord.ID).Nodup) :
    ∀ r ∈ records, ∀ s ∈ records, r.ID = s.ID → r = s :=
  List.inj_on_of_nodup_map hnodup

theorem mem_related_nodes (records : List CrimeRecord)
    (record : CrimeRecord) (x : String) :
    x ∈ related_nodes records record ↔
      ∃ r ∈ records, r.ID = x ∧ r.ID ≠ record.ID ∧
        r.Date.date = record.Date.date := by
  simp only [related_nodes, List.mem_map, List.mem_filter, bne_iff_ne,
    beq_iff_eq, decide_eq_true_eq]
  constructor
  · rintro ⟨r, ⟨⟨hmem, hne⟩, hdate⟩, hid⟩
    exact ⟨r, hmem, hid, hne, hdate⟩
  · rintro ⟨r, hmem, hid, hne, hdate⟩
    exact ⟨r, ⟨⟨hmem, hne⟩, hdate⟩, hid⟩

theorem lookup_build_adjacency (records : List CrimeRecord)
    (hnodup : (records.map CrimeRecord.ID).Nodup) {r0 : CrimeRecord}
    (hr0 : r0 ∈ records) :
    lookupAdj (build_adjacency_list records) r0.ID =
      some (related_nodes records r0) :=
  lookupAdj_map_nodup (related_nodes records) records hnodup r0 hr0

/-- C1: For every adjacency graph built from a record set (ids unique, per
the data model's input assumption) and every start record id that is a key
of the graph — i.e. the id of some record `r0`, whose date is `D` — the
reachable set returned by the breadth-first traversal equals exactly the
set of all record ids whose date equals `D`, including the start id
itself. -/
theorem six_degrees_reachable_iff_same_date
    (records : List CrimeRecord) (start : String) (r0 : CrimeRecord)
    (hnodup : (records.map CrimeRecord.ID).Nodup)
    (hr0 : r0 ∈ records) (hstart : r0.ID = start) :
    ∀ x, x ∈ six_degrees_of_distribution (build_adjacency_list records) start
      ↔ ∃ r ∈ records, r.ID = x ∧ r.Date.date = r0.Date.date := by
  intro x
  rw [mem_six_degrees_iff]
  constructor
  · intro hreach
    induction hreach with
    | refl => exact ⟨r0, hr0, hstart, rfl⟩
    | tail _ e ih =>
      rcases e with ⟨ns, hlk, hmem⟩
      rcases lookupAdj_map_some (related_nodes records) records _ ns hlk
        with ⟨r', hr', hid', hval⟩
      rcases ih with ⟨ry, hry, hyid, hydate⟩
      have heq : r' = ry :=
        id_inj_of_nodup hnodup r' hr' ry hry (hid'.trans hyid.symm)
      rw [hval, mem_related_nodes] at hmem
      rcases hmem with ⟨rx, hrx, hxid, _, hxdate⟩
      exact ⟨rx, hrx, hxid, by rw [hxdate, heq, hydate]⟩
  · rintro ⟨r, hr, hrid, hrdate⟩
    by_cases hx : x = start
    · rw [hx]
    · refine Relation.ReflTransGen.single
        ⟨related_nodes records r0, ?_, ?_⟩
      · rw [← hstart]
        exact lookup_build_adjacency records hnodup hr0
      · rw [mem_related_nodes]
        refine ⟨r, hr, hrid, ?_, hrdate⟩
        rw [hrid, hstart]
        exact hx

/-- C2: In the adjacency graph built from any record set (ids unique, per
the data model's input assumption), for every ordered pair of distinct
records (A, B), B's id is in A's adjacency set iff A's calendar date (time
of day discarded) equals B's; consequently adjacency is symmetric, and no
id is ever a member of its own adjacency set. -/
theorem build_adjacency_list_edge_iff
    (records : List CrimeRecord)
    (hnodup : (records.map CrimeRecord.ID).Nodup) :
    (∀ A ∈ records, ∀ B ∈ records, A ≠ B →
      (EdgeRel (build_adjacency_list records) A.ID B.ID ↔
        A.Date.date = B.Date.date)) ∧
    (∀ A ∈ records, ∀ B ∈ records, A ≠ B →
      (EdgeRel (build_adjacency_list records) A.ID B.ID ↔
        EdgeRel (build_adjacency_list records) B.ID A.ID)) ∧
    (∀ k, ¬ EdgeRel (build_adjacency_list records) k k) := by
  have hmain : ∀ A ∈ records, ∀ B ∈ records, A ≠ B →
      (EdgeRel (build_adjacency_list records) A.ID B.ID ↔
        A.Date.date = B.Date.date) := by
    intro A hA B hB hAB
    have hlk := lookup_build_adjacency records hnodup hA
    constructor
    · rintro ⟨ns, hlk', hmem⟩
      rw [hlk'] at hlk
      cases hlk
      rw [mem_related_nodes] at hmem
      rcases hmem with ⟨r, hr, hid, _, hdate⟩
      have : r = B := id_inj_of_nodup hnodup r hr B hB hid
      rw [← hdate, this]
    · intro hdate
      refine ⟨related_nodes records A, hlk, ?_⟩
      rw [mem_related_nodes]
      refine ⟨B, hB, rfl, fun h => hAB ?_, hdate.symm⟩
      exact (id_inj_of_nodup hnodup B hB A hA h).symm
  refine ⟨hmain, ?_, ?_⟩
  · intro A hA B hB hAB
    rw [hmain A hA B hB hAB, hmain B hB A hA (fun h => hAB h.symm)]
    exact eq_comm
  · rintro k ⟨ns, hlk, hmem⟩
    rcases lookupAdj_map_some (related_nodes records) records k ns hlk
      with ⟨r, _, hid, hval⟩
    rw [hval, mem_related_nodes] at hmem
    rcases hmem with ⟨r', _, hid', hne, _⟩
    exact hne (hid'.trans (hid.symm ▸ rfl))

/-- C8: the reachable set produced by the breadth-first traversal is
independent of the order in which a `HashSet` of neighbors happens to be
enumerated: two adjacency maps binding the same keys to permuted neighbor
lists yield equal visited sets from any start node. -/
theorem six_degrees_order_independent
    (adj1 adj2 : AdjList) (start : String)
    (h : ∀ k, OptPerm (lookupAdj adj1 k) (lookupAdj adj2 k)) :
    ∀ x, x ∈ six_degrees_of_distribution adj1 start ↔
      x ∈ six_degrees_of_distribution adj2 start := by
  have hedge : ∀ x y, EdgeRel adj1 x y ↔ EdgeRel adj2 x y := by
    intro x y
    have hx := h x
    constructor
    · rintro ⟨ns, hlk, hmem⟩
      rw [hlk] at hx
      cases h2 : lookupAdj adj2 x with
      | none => rw [h2] at hx; simp [OptPerm] at hx
      | some ns2 =>
        rw [h2] at hx
        simp only [OptPerm] at hx
        exact ⟨ns2, h2, hx.mem_iff.mp hmem⟩
    · rintro ⟨ns, hlk, hmem⟩
      rw [hlk] at hx
      cases h1 : lookupAdj adj1 x with
      | none => rw [h1] at hx; simp [OptPerm] at hx
      | some ns1 =>
        rw [h1] at hx
        simp only [OptPerm] at hx
        exact ⟨ns1, h1, hx.mem_iff.mpr hmem⟩
  intro x
  rw [mem_six_degrees_iff, mem_six_degrees_iff]
  constructor
  · exact Relation.ReflTransGen.mono (fun a b => (hedge a b).mp)
  · exact Relation.ReflTransGen.mono (fun a b => (hedge a b).mpr)

/-- C5 counterexample: for a start id absent from the graph the traversal
does not produce an error of any kind — the code's return type is a plain
set and, concretely, the call returns the singleton set of the start id. -/
theorem six_degrees_no_error_on_missing_start :
    six_degrees_of_distribution [("a", ["b"])] "zzz" = ["zzz"] := by
  simp [six_degrees_of_distribution, bfsAux, enqueueNew, lookupAdj]

/-- C5 amended: for every adjacency graph and every start record id that
is not a key of the graph, the traversal returns the singleton set
containing only the start id (there is no `NotFound`/`InvalidInput` error
path in the function). -/
theorem six_degrees_missing_start_singleton (adj : AdjList) (start : String)
    (h : lookupAdj adj start = none) :
    six_degrees_of_distribution adj start = [start] := by
  rw [six_degrees_of_distribution, bfsAux, h]
  simp only [Option.getD_none, enqueueNew]
  rw [bfsAux]

/-- Characterization of a successfully cleaned record: each normalized
field as a function of the raw row and the external parsers. -/
theorem read_row_ok_char (parseDT : String → Option NaiveDateTime)
    (parseF64 : String → Option Rat) (row : RawRow) (rec : CrimeRecord)
    (h : read_row parseDT parseF64 row = RowOutcome.ok rec) :
    rec.Arrest = (row.Arrest == "TRUE") ∧
    rec.Domestic = (row.Domestic == "TRUE") ∧
    rec.X_Coordinate =
      (if row.X_Coordinate = "" then none else parseF64 row.X_Coordinate) ∧
    rec.Y_Coordinate =
      (if row.Y_Coordinate = "" then none else parseF64 row.Y_Coordinate) ∧
    rec.Latitude =
      (if row.Latitude = "" then none else parseF64 row.Latitude) ∧
    rec.Longitude =
      (if row.Longitude = "" then none else parseF64 row.Longitude) := by
  have hfield : ∀ (s : String) (v : Option Rat),
      parseOptNum parseF64 s = some v →
      v = (if s = "" then none else parseF64 s) := by
    intro s v hv
    rw [parseOptNum] at hv
    split at hv
    · cases hv
      rw [if_pos (by assumption)]
    · split at hv
      · cases hv
      · cases hv
        rw [if_neg (by assumption)]
        exact (by assumption : parseF64 s = some _).symm
  rw [read_row] at h
  split at h
  · cases h
  · split at h
    · cases h
    · split at h
      · cases h
      · split at h
        · cases h
        · split at h
          · cases h
          · cases h
            refine ⟨rfl, rfl, ?_, ?_, ?_, ?_⟩
            · exact hfield _ _ (by assumption)
            · exact hfield _ _ (by assumption)
            · exact hfield _ _ (by assumption)
            · exact hfield _ _ (by assumption)

/-- C6: for every raw row that ingestion accepts, each normalized boolean
field (`Arrest`, `Domestic`) is true iff the raw token is exactly the
string `"TRUE"` (case-sensitive exact match); any other token, including
`"false"` and the empty string, yields false. -/
theorem read_row_bool_fields (parseDT : String → Option NaiveDateTime)
    (parseF64 : String → Option Rat) (row : RawRow) (rec : CrimeRecord)
    (h : read_row parseDT parseF64 row = RowOutcome.ok rec) :
    (rec.Arrest = true ↔ row.Arrest = "TRUE") ∧
    (rec.Domestic = true ↔ row.Domestic = "TRUE") := by
  rcases read_row_ok_char parseDT parseF64 row rec h with ⟨ha, hd, _⟩
  rw [ha, hd]
  exact ⟨beq_iff_eq, beq_iff_eq⟩

/-- C7: for every raw row that ingestion accepts and each optional numeric
field (x, y, latitude, longitude): an empty raw string normalizes to
`none`, and a non-empty raw string that the float parser accepts
normalizes to `some` of the parsed value. -/
theorem read_row_numeric_fields (parseDT : String → Option NaiveDateTime)
    (parseF64 : String → Option Rat) (row : RawRow) (rec : CrimeRecord)
    (h : read_row parseDT parseF64 row = RowOutcome.ok rec) :
    (row.X_Coordinate = "" → rec.X_Coordinate = none) ∧
    (row.X_Coordinate ≠ "" → ∀ v, parseF64 row.X_Coordinate = some v →
      rec.X_Coordinate = some v) ∧
    (row.Y_Coordinate = "" → rec.Y_Coordinate = none) ∧
    (row.Y_Coordinate ≠ "" → ∀ v, parseF64 row.Y_Coordinate = some v →
      rec.Y_Coordinate = some v) ∧
    (row.Latitude = "" → rec.Latitude = none) ∧
    (row.Latitude ≠ "" → ∀ v, parseF64 row.Latitude = some v →
      rec.Latitude = some v) ∧
    (row.Longitude = "" → rec.Longitude = none) ∧
    (row.Longitude ≠ "" → ∀ v, parseF64 row.Longitude = some v →
      rec.Longitude = some v) := by
  rcases read_row_ok_char parseDT parseF64 row rec h with
    ⟨_, _, hx, hy, hlat, hlon⟩
  refine ⟨?_, ?_, ?_, ?_, ?_, ?_, ?_, ?_⟩
  · intro he; rw [hx, if_pos he]
  · intro hne v hv; rw [hx, if_neg hne, hv]
  · intro he; rw [hy, if_pos he]
  · intro hne v hv; rw [hy, if_neg hne, hv]
  · intro he; rw [hlat, if_pos he]
  · intro hne v hv; rw [hlat, if_neg hne, hv]
  · intro he; rw [hlon, if_pos he]
  · intro hne v hv; rw [hlon, if_neg hne, hv]

/-- C4 counterexample: a row with a non-empty, unparseable X coordinate
makes ingestion panic (the `.unwrap()` on a failed `parse`), rather than
return a parse error to its caller. -/
theorem read_data_panic_on_bad_numeric :
    read_data demoParseDT demoParseF64 [rowBadNum] = ReadOutcome.panic ∧
    read_data demoParseDT demoParseF64 [rowBadNum] ≠ ReadOutcome.parseErr := by
  constructor
  · decide
  · decide

theorem read_data_aux_ok (parseDT : String → Option NaiveDateTime)
    (parseF64 : String → Option Rat) :
    ∀ (rows : List RawRow) (acc recs : List CrimeRecord),
      read_data_aux parseDT parseF64 rows acc = ReadOutcome.ok recs →
      ∀ row ∈ rows, ∃ rec, read_row parseDT parseF64 row = RowOutcome.ok rec := by
  intro rows
  induction rows with
  | nil => intro _ _ _ row hrow; simp at hrow
  | cons r rest ih =>
    intro acc recs h row hrow
    rw [read_data_aux] at h
    cases hr : read_row parseDT parseF64 r with
    | ok rec =>
      rw [hr] at h
      rcases List.mem_cons.mp hrow with hrw | hrw
      · exact ⟨rec, hrw ▸ hr⟩
      · exact ih _ _ h row hrw
    | parseErr => rw [hr] at h; cases h
    | panic => rw [hr] at h; cases h

/-- C4 amended: a row whose timestamp fails to parse causes ingestion to
return a parse error to its caller; a row with a non-empty numeric field
(x, y, latitude, longitude) that fails to parse causes a panic (via
`.unwrap()`) rather than a returned error; in both cases no output
containing the row is produced — a successful ingestion only contains
rows every one of whose fields parsed. -/
theorem read_row_failure_modes (parseDT : String → Option NaiveDateTime)
    (parseF64 : String → Option Rat) (row : RawRow) :
    (parseDT row.Date = none →
      read_row parseDT parseF64 row = RowOutcome.parseErr) ∧
    (∀ dt, parseDT row.Date = some dt →
      ((row.X_Coordinate ≠ "" ∧ parseF64 row.X_Coordinate = none) ∨
       (row.Y_Coordinate ≠ "" ∧ parseF64 row.Y_Coordinate = none) ∨
       (row.Latitude ≠ "" ∧ parseF64 row.Latitude = none) ∨
       (row.Longitude ≠ "" ∧ parseF64 row.Longitude = none)) →
      read_row parseDT parseF64 row = RowOutcome.panic) ∧
    (∀ rows recs, read_data parseDT parseF64 rows = ReadOutcome.ok recs →
      row ∈ rows → ∃ rec, read_row parseDT parseF64 row = RowOutcome.ok rec) := by
  have hbad : ∀ s, s ≠ "" → parseF64 s = none →
      parseOptNum parseF64 s = none := by
    intro s hne hnone
    rw [parseOptNum, if_neg hne, hnone]
  refine ⟨?_, ?_, ?_⟩
  · intro hdt
    rw [read_row, hdt]
  · intro dt hdt hfield
    rw [read_row, hdt]
    rcases hfield with ⟨hne, hno⟩ | ⟨hne, hno⟩ | ⟨hne, hno⟩ | ⟨hne, hno⟩
    · rw [hbad _ hne hno]
    · cases hx : parseOptNum parseF64 row.X_Coordinate with
      | none => rfl
      | some xv => rw [hbad _ hne hno]
    · cases hx : parseOptNum parseF64 row.X_Coordinate with
      | none => rfl
      | some xv =>
        cases hy : parseOptNum parseF64 row.Y_Coordinate with
        | none => rfl
        | some yv => rw [hbad _ hne hno]
    · cases hx : parseOptNum parseF64 row.X_Coordinate with
      | none => rfl
      | some xv =>
        cases hy : parseOptNum parseF64 row.Y_Coordinate with
        | none => rfl
        | some yv =>
          cases hl : parseOptNum parseF64 row.Latitude with
          | none => rfl
          | some lv => rw [hbad _ hne hno]
  · intro rows recs h hrow
    exact read_data_aux_ok parseDT parseF64 rows [] recs h row hrow

theorem bumpDate_keys_of_mem (m : List (Nat × Nat)) (d : Nat)
    (_h : m.any (fun p => p.1 == d)) :
    (m.map (fun p => if p.1 == d then (p.1, p.2 + 1) else p)).map Prod.fst
      = m.map Prod.fst := by
  rw [List.map_map]
  apply List.map_congr_left
  intro p _
  simp only [Function.comp_apply]
  split <;> rfl

theorem bumpDate_keys_mem (m : List (Nat × Nat)) (d x : Nat) :
    x ∈ (bumpDate m d).map Prod.fst ↔ x ∈ m.map Prod.fst ∨ x = d := by
  rw [bumpDate]
  by_cases h : m.any (fun p => p.1 == d)
  · rw [if_pos h, bumpDate_keys_of_mem m d h]
    rcases List.any_eq_true.mp h with ⟨p, hp, hpd⟩
    have hd : d ∈ m.map Prod.fst :=
      List.mem_map.mpr ⟨p, hp, beq_iff_eq.mp hpd⟩
    constructor
    · exact Or.inl
    · rintro (hx | hx)
      · exact hx
      · exact hx ▸ hd
  · rw [if_neg h, List.map_append]
    simp

theorem bumpDate_keys_nodup (m : List (Nat × Nat)) (d : Nat)
    (h : (m.map Prod.fst).Nodup) : ((bumpDate m d).map Prod.fst).Nodup := by
  rw [bumpDate]
  by_cases ha : m.any (fun p => p.1 == d)
  · rw [if_pos ha, bumpDate_keys_of_mem m d ha]
    exact h
  · rw [if_neg ha, List.map_append]
    have hd : d ∉ m.map Prod.fst := by
      intro hmem
      rcases List.mem_map.mp hmem with ⟨p, hp, hpd⟩
      have hany : (m.any fun p => p.1 == d) = true :=
        List.any_eq_true.mpr ⟨p, hp, beq_iff_eq.mpr hpd⟩
      exact ha hany
    simp only [List.map_cons, List.map_nil]
    exact List.Nodup.append h (List.nodup_singleton d)
      (by simpa [List.disjoint_singleton] using hd)

theorem date_counts_aux_keys_nodup :
    ∀ (records : List CrimeRecord) (m : List (Nat × Nat)),
      (m.map Prod.fst).Nodup →
      (((records.foldl (fun m r => bumpDate m r.Date.date) m)).map
        Prod.fst).Nodup := by
  intro records
  induction records with
  | nil => intro m h; exact h
  | cons r rest ih =>
    intro m h
    exact ih _ (bumpDate_keys_nodup m r.Date.date h)

theorem date_counts_aux_keys_mem :
    ∀ (records : List CrimeRecord) (m : List (Nat × Nat)) (x : Nat),
      (x ∈ (records.foldl (fun m r => bumpDate m r.Date.date) m).map Prod.fst
        ↔ x ∈ m.map Prod.fst ∨ ∃ r ∈ records, r.Date.date = x) := by
  intro records
  induction records with
  | nil => intro m x; simp
  | cons r rest ih =>
    intro m x
    rw [List.foldl_cons, ih, bumpDate_keys_mem]
    simp only [List.mem_cons]
    constructor
    · rintro ((h | h) | ⟨r', hr', hd⟩)
      · exact Or.inl h
      · exact Or.inr ⟨r, Or.inl rfl, h.symm⟩
      · exact Or.inr ⟨r', Or.inr hr', hd⟩
    · rintro (h | ⟨r', hr' | hr', hd⟩)
      · exact Or.inl (Or.inl h)
      · exact Or.inl (Or.inr (hr' ▸ hd.symm))
      · exact Or.inr ⟨r', hr', hd⟩

theorem date_counts_keys_nodup (records : List CrimeRecord) :
    ((date_counts records).map Prod.fst).Nodup :=
  date_counts_aux_keys_nodup records [] (by simp)

theorem date_counts_keys_mem (records : List CrimeRecord) (x : Nat) :
    x ∈ (date_counts records).map Prod.fst ↔
      ∃ r ∈ records, r.Date.date = x := by
  rw [date_counts, date_counts_aux_keys_mem]
  simp

/-- C9: for every non-empty record set, the date sequence produced by the
temporal aggregator is strictly ascending, contains no duplicates, and
its elements are exactly the distinct calendar dates (time of day
discarded) present in the input records. -/
theorem temporal_dates_sorted_distinct (records : List CrimeRecord)
    (_hne : records ≠ []) :
    (temporal_dates records).Sorted (· < ·) ∧
    (temporal_dates records).Nodup ∧
    ∀ d, d ∈ temporal_dates records ↔ ∃ r ∈ records, r.Date.date = d := by
  have hperm : List.Perm (temporal_dates records)
      ((date_counts records).map Prod.fst) :=
    List.perm_insertionSort _ _
  have hnd : (temporal_dates records).Nodup :=
    hperm.nodup_iff.mpr (date_counts_keys_nodup records)
  have hsorted : (temporal_dates records).Sorted (· ≤ ·) :=
    List.sorted_insertionSort _ _
  refine ⟨hsorted.lt_of_le hnd, hnd, ?_⟩
  intro d
  rw [hperm.mem_iff, date_counts_keys_mem]

/-- C10: for the empty record sequence, the temporal aggregation-and-plot
operation does not produce an empty aggregation: the date list and count
map are empty, so `dates[0]` / `.max().unwrap()` hit the panic branch
(modelled as `none`). -/
theorem plot_temporal_trends_empty_none :
    plot_temporal_trends [] = none ∧
    date_counts ([] : List CrimeRecord) = [] := by
  exact ⟨rfl, rfl⟩

theorem nearestAux_lt (p : Point) :
    ∀ (cs : List Point) (i best : Nat) (d : Rat), best < i →
      nearestAux p cs i best d < i + cs.length := by
  intro cs
  induction cs with
  | nil =>
    intro i best d h
    rw [nearestAux]
    simpa using h
  | cons c cs ih =>
    intro i best d h
    rw [nearestAux]
    have hlen : i + 1 + cs.length = i + (c :: cs).length := by
      simp [List.length_cons]
      omega
    split
    · exact hlen ▸ ih (i + 1) i (sqDist c p) (Nat.lt_succ_self i)
    · exact hlen ▸ ih (i + 1) best d (Nat.lt_succ_of_lt h)

theorem nearestIdx_lt (p : Point) (centers : List Point)
    (h : centers ≠ []) : nearestIdx p centers < centers.length := by
  match centers, h with
  | c0 :: cs, _ =>
    rw [nearestIdx]
    have hb := nearestAux_lt p cs 1 0 (sqDist c0 p) Nat.one_pos
    simp only [List.length_cons]
    omega

theorem assignPoints_length (points centers : List Point) :
    (assignPoints points centers).length = points.length := by
  simp [assignPoints]

theorem assignPoints_lt (points centers : List Point) (h : centers ≠ []) :
    ∀ v ∈ assignPoints points centers, v < centers.length := by
  intro v hv
  rcases List.mem_map.mp hv with ⟨p, _, hp⟩
  exact hp ▸ nearestIdx_lt p centers h

theorem updateCenters_length (points : List Point) (assign : List Nat)
    (centers : List Point) :
    (updateCenters points assign centers).length = centers.length := by
  simp [updateCenters]

theorem kmeansLoop_spec (points : List Point) (k : Nat) (hk : 0 < k) :
    ∀ (fuel : Nat) (centers : List Point) (assign : List Nat),
      centers.length = k → assign.length = points.length →
      (∀ v ∈ assign, v < k) →
      (kmeansLoop points fuel centers assign).1.length = k ∧
      (kmeansLoop points fuel centers assign).2.length = points.length ∧
      ∀ v ∈ (kmeansLoop points fuel centers assign).2, v < k := by
  intro fuel
  induction fuel with
  | zero =>
    intro centers assign h1 h2 h3
    rw [kmeansLoop]
    exact ⟨h1, h2, h3⟩
  | succ n ih =>
    intro centers assign h1 h2 h3
    have hne : centers ≠ [] := by
      intro hnil
      rw [hnil] at h1
      simp at h1
      omega
    rw [kmeansLoop]
    split
    · refine ⟨h1, assignPoints_length points centers, ?_⟩
      intro v hv
      exact h1 ▸ assignPoints_lt points centers hne v hv
    · refine ih _ _ ?_ ?_ ?_
      · rw [updateCenters_length, h1]
      · exact assignPoints_length points centers
      · intro v hv
        exact h1 ▸ assignPoints_lt points centers hne v hv

theorem mkClusters_length (centers : List Point) (assign : List Nat) :
    (mkClusters centers assign).length = centers.length := by
  simp [mkClusters]

theorem countP_beq_range (a k : Nat) (h : a < k) :
    (List.range k).countP (fun j => a == j) = 1 := by
  have hq : ∀ j ∈ List.range k, ((a == j) = true ↔ (j == a) = true) := by
    intro j _
    rw [beq_iff_eq, beq_iff_eq]
    exact eq_comm
  rw [List.countP_congr hq]
  have hc : (List.range k).countP (fun j => j == a) = (List.range k).count a :=
    rfl
  rw [hc]
  exact List.count_eq_one_of_mem (List.nodup_range k) (List.mem_range.mpr h)

theorem mkClusters_countP (centers : List Point) (assign : List Nat) (i : Nat)
    (hi : i < assign.length) (hv : assign.getD i 0 < centers.length) :
    (mkClusters centers assign).countP (fun c => c.members.contains i) = 1 := by
  rw [mkClusters, List.countP_map]
  have hq : ∀ j ∈ List.range centers.length,
      ((((List.range assign.length).filter
          (fun i' => assign.getD i' 0 == j)).contains i) = true
        ↔ ((assign.getD i 0 == j) = true)) := by
    intro j _
    simp only [List.contains_iff_exists_mem_beq, List.mem_filter, beq_iff_eq,
      List.mem_range]
    constructor
    · rintro ⟨x, ⟨_, hx2⟩, hx3⟩
      rw [hx3]
      exact hx2
    · intro hj
      exact ⟨i, ⟨hi, hj⟩, rfl⟩
  refine (List.countP_congr ?_).trans
    (countP_beq_range (assign.getD i 0) centers.length hv)
  intro j hj
  simp only [Function.comp_apply]
  exact hq j hj

theorem sum_map_add {α : Type} (l : List α) (f g : α → Nat) :
    (l.map (fun x => f x + g x)).sum = (l.map f).sum + (l.map g).sum := by
  induction l with
  | nil => rfl
  | cons x l ih =>
    simp only [List.map_cons, List.sum_cons, ih]
    omega

theorem sum_indicator_range (a : Nat) : ∀ (k : Nat),
    ((List.range k).map (fun j => if a = j then 1 else 0)).sum
      = if a < k then 1 else 0 := by
  intro k
  induction k with
  | zero => simp
  | succ k ih =>
    rw [List.range_succ, List.map_append, List.sum_append, ih]
    simp only [List.map_cons, List.map_nil, List.sum_cons, List.sum_nil]
    split_ifs <;> omega

theorem sum_filter_range (a : Nat → Nat) :
    ∀ (n k : Nat), (∀ i, i < n → a i < k) →
      ((List.range k).map
        (fun j => ((List.range n).filter (fun i => a i == j)).length)).sum
      = n := by
  intro n
  induction n with
  | zero => intro k _; simp
  | succ n ih =>
    intro k h
    have hcongr : ∀ j ∈ List.range k,
        ((List.range (n + 1)).filter (fun i => a i == j)).length
          = ((List.range n).filter (fun i => a i == j)).length
            + (if a n = j then 1 else 0) := by
      intro j _
      rw [List.range_succ, List.filter_append, List.length_append]
      congr 1
      by_cases hj : a n = j
      · simp [beq_iff_eq, hj]
      · simp [beq_iff_eq, hj]
    rw [List.map_congr_left hcongr, sum_map_add,
      ih k (fun i hi => h i (Nat.lt_succ_of_lt hi)),
      sum_indicator_range (a n) k, if_pos (h n (Nat.lt_succ_self n))]

theorem mkClusters_sum (centers : List Point) (assign : List Nat)
    (hv : ∀ i, i < assign.length → assign.getD i 0 < centers.length) :
    ((mkClusters centers assign).map (fun c => c.members.length)).sum
      = assign.length := by
  rw [mkClusters, List.map_map]
  exact sum_filter_range (fun i => assign.getD i 0) assign.length
    centers.length hv

/-- C3 (the `k_means` crate is external to this repository; its `fit` is
modelled from the spec): for every point sequence and every k with
1 ≤ k ≤ number of points, the clustering terminates with a result
(`isSome`), and any returned result consists of exactly k clusters in
which every input point index appears in exactly one cluster's member
set, so the total member count across all clusters equals the input
point count. -/
theorem kmeans_fit_partition (points : List Point) (k maxIter : Nat)
    (h1 : 1 ≤ k) (h2 : k ≤ points.length) :
    ((KMeans.mk points k).fit maxIter).isSome = true ∧
    ∀ clusters, (KMeans.mk points k).fit maxIter = some clusters →
      clusters.length = k ∧
      (∀ i, i < points.length →
        clusters.countP (fun c => c.members.contains i) = 1) ∧
      (clusters.map (fun c => c.members.length)).sum = points.length := by
  have hcond : ¬ ((KMeans.mk points k).k = 0 ∨
      (KMeans.mk points k).points.length < (KMeans.mk points k).k) := by
    simp only [not_or]
    omega
  have hinit_len : (points.take k).length = k := by
    rw [List.length_take]
    omega
  have hinit_ne : points.take k ≠ [] := by
    intro hnil
    rw [hnil] at hinit_len
    simp at hinit_len
    omega
  have ha0_len : (assignPoints points (points.take k)).length = points.length :=
    assignPoints_length points (points.take k)
  have ha0_lt : ∀ v ∈ assignPoints points (points.take k), v < k := by
    intro v hv
    exact hinit_len ▸ assignPoints_lt points (points.take k) hinit_ne v hv
  have hc0_len : (updateCenters points (assignPoints points (points.take k))
      (points.take k)).length = k := by
    rw [updateCenters_length]
    exact hinit_len
  have hspec := kmeansLoop_spec points k (by omega) maxIter
    (updateCenters points (assignPoints points (points.take k)) (points.take k))
    (assignPoints points (points.take k)) hc0_len ha0_len ha0_lt
  rcases hspec with ⟨hlen1, hlen2, hlt2⟩
  have hfit : (KMeans.mk points k).fit maxIter = some
      (mkClusters
        (kmeansLoop points maxIter
          (updateCenters points (assignPoints points (points.take k))
            (points.take k))
          (assignPoints points (points.take k))).1
        (kmeansLoop points maxIter
          (updateCenters points (assignPoints points (points.take k))
            (points.take k))
          (assignPoints points (points.take k))).2) := by
    rw [KMeans.fit, if_neg hcond]
  refine ⟨by rw [hfit]; rfl, ?_⟩
  intro clusters hcl
  rw [hfit] at hcl
  cases hcl
  refine ⟨by rw [mkClusters_length, hlen1], ?_, ?_⟩
  · intro i hi
    refine mkClusters_countP _ _ i (by rw [hlen2]; exact hi) ?_
    rw [hlen1]
    refine hlt2 _ ?_
    have hget := List.getD_eq_getElem
      (l := (kmeansLoop points maxIter
        (updateCenters points (assignPoints points (points.take k))
          (points.take k))
        (assignPoints points (points.take k))).2) (d := 0)
      (n := i) (by rw [hlen2]; exact hi)
    rw [hget]
    exact List.getElem_mem _
  · rw [mkClusters_sum _ _ ?_, hlen2]
    intro i hi
    rw [hlen1]
    refine hlt2 _ ?_
    have hget := List.getD_eq_getElem
      (l := (kmeansLoop points maxIter
        (updateCenters points (assignPoints points (points.take k))
          (points.take k))
        (assignPoints points (points.take k))).2) (d := 0)
      (n := i) hi
    rw [hget]
    exact List.getElem_mem _

/-- Witness for C1 at the spec's concrete three-record scenario. -/
theorem six_degrees_reachable_iff_same_date_witness :
    "2" ∈ six_degrees_of_distribution (build_adjacency_list demoRecords) "1" ∧
    "3" ∉ six_degrees_of_distribution (build_adjacency_list demoRecords) "1" := by
  have h := six_degrees_reachable_iff_same_date demoRecords "1" (mkRec "1" 10)
    (by decide) (by decide) (by decide)
  constructor
  · exact (h "2").mpr (by decide)
  · intro hmem
    exact absurd ((h "3").mp hmem) (by decide)

/-- Witness for C2 at the spec's concrete three-record scenario. -/
theorem build_adjacency_list_edge_iff_witness :
    EdgeRel (build_adjacency_list demoRecords) "1" "2" ∧
    ¬ EdgeRel (build_adjacency_list demoRecords) "1" "1" := by
  have h := build_adjacency_list_edge_iff demoRecords (by decide)
  constructor
  · exact (h.1 (mkRec "1" 10) (by decide) (mkRec "2" 10) (by decide)
      (by decide)).mpr (by decide)
  · exact h.2.2 "1"

/-- Witness for C3 at the spec's concrete four-point scenario. -/
theorem kmeans_fit_partition_witness :
    ((KMeans.mk demoPoints 2).fit 100).isSome = true :=
  (kmeans_fit_partition demoPoints 2 100 (by decide) (by decide)).1

/-- Witness for C4's amended statement: a bad timestamp yields a returned
error, a bad numeric field yields a panic, and a fully parsed row yields a
cleaned record inside a successful ingestion. -/
theorem read_row_failure_modes_witness :
    read_row demoParseDT demoParseF64 rowBadDate = RowOutcome.parseErr ∧
    read_row demoParseDT demoParseF64 rowBadNum = RowOutcome.panic ∧
    ∃ rec, read_row demoParseDT demoParseF64 rowClean = RowOutcome.ok rec := by
  refine ⟨(read_row_failure_modes demoParseDT demoParseF64 rowBadDate).1
    (by decide), ?_, ?_⟩
  · exact (read_row_failure_modes demoParseDT demoParseF64 rowBadNum).2.1
      { date := 18263, time := 184, year := 2020 } (by decide)
      (Or.inl (by decide))
  · exact (read_row_failure_modes demoParseDT demoParseF64 rowClean).2.2
      [rowClean] [recClean] (by decide) (by decide)

/-- Witness for C5's amended statement at a concrete graph and absent
start id. -/
theorem six_degrees_missing_start_singleton_witness :
    six_degrees_of_distribution demoAdjA "q" = ["q"] :=
  six_degrees_missing_start_singleton demoAdjA "q" (by decide)

/-- Witness for C6 at a concrete row with `Arrest = "TRUE"` and
`Domestic = "false"`. -/
theorem read_row_bool_fields_witness :
    (recClean.Arrest = true ↔ rowClean.Arrest = "TRUE") ∧
    (recClean.Domestic = true ↔ rowClean.Domestic = "TRUE") :=
  read_row_bool_fields demoParseDT demoParseF64 rowClean recClean (by decide)

/-- Witness for C7 at a concrete row with a non-empty parseable X and an
empty Y. -/
theorem read_row_numeric_fields_witness :
    recClean.X_Coordinate = some (3 : Rat) ∧
    recClean.Y_Coordinate = none := by
  have h := read_row_numeric_fields demoParseDT demoParseF64 rowClean recClean
    (by decide)
  exact ⟨h.2.1 (by decide) (3 : Rat) (by decide), h.2.2.1 (by decide)⟩

/-- Witness for C8 at a concrete pair of adjacency maps that differ only
in the enumeration order of one neighbor set. -/
theorem six_degrees_order_independent_witness :
    ("b" ∈ six_degrees_of_distribution demoAdjA "a" ↔
      "b" ∈ six_degrees_of_distribution demoAdjB "a") := by
  refine six_degrees_order_independent demoAdjA demoAdjB "a" ?_ "b"
  intro k
  by_cases hc : "c" = k
  · rw [← hc]
    exact List.Perm.refl _
  · by_cases hb : "b" = k
    · rw [← hb]
      exact List.Perm.refl _
    · by_cases ha : "a" = k
      · rw [← ha]
        exact List.Perm.swap "c" "b" []
      · simp [demoAdjA, demoAdjB, lookupAdj, OptPerm, ha, hb, hc]

/-- Witness for C9 at the spec's concrete three-record scenario. -/
theorem temporal_dates_sorted_distinct_witness :
    (temporal_dates demoRecords).Sorted (· < ·) ∧
    (10 ∈ temporal_dates demoRecords ↔
      ∃ r ∈ demoRecords, r.Date.date = 10) := by
  have h := temporal_dates_sorted_distinct demoRecords (by decide)
  exact ⟨h.1, h.2.2 10⟩

end Final
